import Mathlib

/-!
Verification of the invoice-app receipt parser and bill calculator.

The Python source (`app.py`) parses OCR text lines into item records
(`extract_items`) and computes a bill summary with service charge, VAT,
tip and a per-person split.  Here the per-line text processing is embedded
shallowly over `List Char`:

* Python strings are `List Char`; the ASCII subset of Python's character
  classes (`\d`, `\s`, `\w`, `str.lower`, `str.title`) is modelled, which
  is exact on the receipt data the program manipulates.
* the two regular expressions of `extract_items` are implemented directly
  as scanning functions with the exact leftmost-match semantics of
  `re.search` / `re.sub` / `re.match` for those patterns;
* Python `float` money arithmetic is modelled exactly over `ℚ`, with
  `round(x, 2)` as round-half-to-even at two decimals;
* Python `int(s)` on a digit string is modelled as an `Option`-valued
  parse (`pyInt`): it fails exactly when CPython's integer-string
  conversion length limit (default 4300 digits) is exceeded, which is the
  failure mode the source guards with `try/except`.

Functions that advance by more than one character per step use a
fuel parameter (fuel = length of the remaining input) so that every
definition is structurally recursive and evaluates by `decide`; fuel
irrelevance is proved and only fuel-free unfolding equations are used.
-/

set_option maxRecDepth 8000

/-- Python strings are modelled as lists of characters. -/
abbrev Str := List Char

/-- Coerce a Lean string literal to the `List Char` model. -/
def lit (s : String) : Str := s.data

/-- ASCII whitespace, the characters matched by Python's `\s`, `str.split()`
and `str.strip()` on the data in scope (space, tab, newline, return,
vertical tab, form feed). -/
def isWs (c : Char) : Bool :=
  c = ' ' || c = '\t' || c = '\n' || c = '\r' || c = '\x0b' || c = '\x0c'

/-- Characters matched by `[\d,]`, the integer-and-thousands-separator part
of the price pattern. -/
def isDc (c : Char) : Bool := c.isDigit || c = ','

/-- Characters of the quantity separator class `[\s\-_.xX*]` in
`re.match(r'^(\d+)[\s\-_.xX*]*(.*)', line_clean)`. -/
def isSep (c : Char) : Bool :=
  isWs c || c = '-' || c = '_' || c = '.' || c = 'x' || c = 'X' || c = '*'

/-- Word characters of Python's `\w` (ASCII): letters, digits, underscore. -/
def isWordCh (c : Char) : Bool := c.isAlphanum || c = '_'

/-- Python `str.lower()` (ASCII). -/
def lower (s : Str) : Str := s.map Char.toLower

/-- Python substring test `needle in hay`. -/
def containsSub (needle hay : Str) : Bool :=
  match hay with
  | [] => needle.isEmpty
  | _ :: t => needle.isPrefixOf hay || containsSub needle t

/-- The `ignore_keywords` list of `extract_items` (app.py line 27). -/
def ignore_keywords : List Str :=
  [lit "subtotal", lit "vat", lit "total", lit "service", lit "thank",
   lit "count", lit "cash", lit "payment", lit "balance", lit "%",
   lit "tip", lit "delivery"]

/-- The `currency_variants` list of `extract_items` (app.py line 28). -/
def currency_variants : List Str :=
  [lit "EGP", lit "LE", lit "L.E.", lit "L.E", lit "جنيه"]

/-- Denylist test of app.py line 33:
`any(x.lower() in line.lower() for x in ignore_keywords)`. -/
def isIgnored (line : Str) : Bool :=
  ignore_keywords.any (fun x => containsSub (lower x) (lower line))

/-- Fueled form of Python `str.replace(pat, rep)`: replace every
non-overlapping occurrence of `pat`, scanning left to right, without
rescanning the replacement text. -/
def replaceAllAux (pat rep : Str) : Nat → Str → Str
  | _, [] => []
  | 0, s => s
  | fuel+1, c :: rest =>
    if !pat.isEmpty && pat.isPrefixOf (c :: rest) then
      rep ++ replaceAllAux pat rep fuel ((c :: rest).drop pat.length)
    else
      c :: replaceAllAux pat rep fuel rest

/-- Python `s.replace(pat, rep)`. -/
def replaceAll (pat rep s : Str) : Str := replaceAllAux pat rep s.length s

/-- Currency folding of app.py lines 36-37:
`for cur in currency_variants: line = line.replace(cur, "EGP")`. -/
def foldCurrency (line : Str) : Str :=
  currency_variants.foldl (fun s cur => replaceAll cur (lit "EGP") s) line

example : foldCurrency (lit "12 L.E. x") = lit "12 EGP x" := by decide
example : foldCurrency (lit "le 10") = lit "le 10" := by decide
example : isIgnored (lit "SubTotal EGP 450.00") = true := by decide
example : isIgnored (lit "Cola 5.00") = false := by decide
example : replaceAll (lit "AB") (lit "X") (lit "ABAB") = lit "XX" := by decide
example : replaceAll (lit "LE") (lit "EGP") (lit "LLE") = lit "LEGP" := by decide

/-- Consume the marker `EGP` case-insensitively at the head of the string:
the `(EGP)?` groups of the price pattern (with `re.IGNORECASE`). -/
def egpHead (s : Str) : Option Str :=
  match s with
  | c1 :: c2 :: c3 :: r =>
    if c1.toLower = 'e' ∧ c2.toLower = 'g' ∧ c3.toLower = 'p' then some r else none
  | _ => none

/-- Match `[\d,]+\.\d{2}` at the head of the string.  The digit-comma run is
maximal (shortening it can never expose the required dot, since run
characters are never dots), then a literal dot and exactly two digits are
required.  Returns the matched token and the remainder. -/
def numTok (s : Str) : Option (Str × Str) :=
  match s.dropWhile isDc with
  | '.' :: d1 :: d2 :: r =>
    if !(s.takeWhile isDc).isEmpty && d1.isDigit && d2.isDigit then
      some (s.takeWhile isDc ++ ['.', d1, d2], r)
    else none
  | _ => none

/-- Match the full price pattern `(EGP)?\s*([\d,]+\.\d{2})\s*(EGP)?` at the
head of the string.  Returns the numeric group (group 2) and the remainder
after the whole match.  When the leading `(EGP)?` consumes `EGP` and the
numeric part then fails, the empty alternative also fails (the head is then
`E`/`e`, neither whitespace nor a digit), so no backtracking is needed. -/
def priceAt (s : Str) : Option (Str × Str) :=
  match numTok (((egpHead s).getD s).dropWhile isWs) with
  | none => none
  | some (g2, r) =>
    some (g2, (egpHead (r.dropWhile isWs)).getD (r.dropWhile isWs))

/-- Leftmost search for the price pattern, as `re.search` on app.py line 39;
returns group 2, the numeric token of the total price. -/
def searchPrice : Str → Option Str
  | [] => none
  | c :: r =>
    match priceAt (c :: r) with
    | some (g2, _) => some g2
    | none => searchPrice r

/-- Fueled form of `re.sub(price-pattern, '', line)` (app.py line 44):
every non-overlapping occurrence is removed, scanning left to right and
continuing after each match. -/
def subPriceAux : Nat → Str → Str
  | _, [] => []
  | 0, s => s
  | fuel+1, c :: rest =>
    match priceAt (c :: rest) with
    | some (_, r) => subPriceAux fuel r
    | none => c :: subPriceAux fuel rest

/-- Python `re.sub` of the price pattern with the empty string. -/
def subPrice (s : Str) : Str := subPriceAux s.length s

/-- Python `str.strip()`: drop whitespace at both ends. -/
def strip (s : Str) : Str :=
  ((s.dropWhile isWs).reverse.dropWhile isWs).reverse

/-- The `line_clean` of app.py line 44, computed from the currency-folded
line: all price-pattern spans removed, then stripped. -/
def lineCleanOf (line : Str) : Str := strip (subPrice (foldCurrency line))

/-- Match `^(\d+)[\s\-_.xX*]*(.*)` as `re.match` on app.py line 48.
Returns the leading digit run (group 1) and the name remainder (group 2).
All three parts are greedy and nothing after them can fail, so the maximal
digit run and maximal separator run are taken. -/
def qtyMatch (s : Str) : Option (Str × Str) :=
  let ds := s.takeWhile Char.isDigit
  if ds.isEmpty then none
  else some (ds, (s.dropWhile Char.isDigit).dropWhile isSep)

/-- Numeric value of a digit string. -/
def natOfDigits (s : Str) : Nat :=
  s.foldl (fun a c => 10 * a + (c.toNat - 48)) 0

/-- Python `int(s)` on the digit string matched by `(\d+)`.  Conversion
succeeds except for CPython's integer string conversion length limit
(`sys.get_int_max_str_digits()`, default 4300), which raises `ValueError`;
that failure is the one the source catches with `try/except`. -/
def pyInt (s : Str) : Option Nat :=
  if 4300 < s.length then none else some (natOfDigits s)

/-- Cents denoted by a matched numeric token `[\d,]+\.\d{2}`: Python parses
`float(tok.replace(',', ''))`, whose value has exactly two decimals, so it
is the integer formed by all digits of the token, in cents. -/
def centsOf (tok : Str) : Nat := natOfDigits (tok.filter Char.isDigit)

example : searchPrice (lit "Cola EGP 5.00") = some (lit "5.00") := by decide
example : searchPrice (lit "Hello") = none := by decide
example : searchPrice (lit "Total 1,234.56 EGP x") = some (lit "1,234.56") := by decide
example : subPrice (lit "Cola 5.00 10.00") = lit "Cola" := by decide
example : subPrice (lit "Cola EGP 5.00") = lit "Cola " := by decide
example : lineCleanOf (lit "2x Club Sandwich EGP 120.00") = lit "2x Club Sandwich" := by decide
example : qtyMatch (lit "2x Club Sandwich") = some (lit "2", lit "Club Sandwich") := by decide
example : qtyMatch (lit "Cola") = none := by decide
example : centsOf (lit "1,234.56") = 123456 := by decide
example : subPrice (lit "3EGP 1.23.45x") = lit "3.45x" := by decide

/-- Fueled form of Python `str.split()`: split on runs of whitespace,
discarding empty pieces. -/
def splitWsAux : Nat → Str → List Str
  | _, [] => []
  | 0, s => [s]
  | fuel+1, c :: r =>
    if isWs c then splitWsAux fuel r
    else ((c :: r).takeWhile (fun x => !isWs x)) ::
      splitWsAux fuel ((c :: r).dropWhile (fun x => !isWs x))

/-- Python `str.split()`. -/
def splitWs (s : Str) : List Str := splitWsAux s.length s

/-- Python `' '.join(ws)`: the pieces separated by single spaces. -/
def joinSpace : List Str → Str
  | [] => []
  | [w] => w
  | w :: ws => w ++ ' ' :: joinSpace ws

/-- Character mapping of Python `str.title()`: a letter is uppercased when
the previous character is not a letter, lowercased otherwise; other
characters pass through.  The flag records whether the previous character
was a letter. -/
def titleMap : Bool → Str → Str
  | _, [] => []
  | prevAlpha, c :: r =>
    (if c.isAlpha then (if prevAlpha then c.toLower else c.toUpper) else c)
      :: titleMap c.isAlpha r

/-- Python `str.title()` (ASCII letters). -/
def pyTitle (s : Str) : Str := titleMap false s

/-- Name cleanup of app.py lines 63-65:
`re.sub(r'[^\w\s]', '', name)`, then `' '.join(name.split())`, then
`.title()`. -/
def cleanName (s : Str) : Str :=
  pyTitle (joinSpace (splitWs (s.filter (fun c => isWordCh c || isWs c))))

/-- Placeholder used when the cleaned name is empty (app.py line 70). -/
def unnamedItem : Str := lit "Unnamed Item"

/-- Final name stored in the record (app.py line 70): the cleaned name, or
the placeholder when it is empty. -/
def displayName (raw : Str) : Str :=
  if (cleanName raw).isEmpty then unnamedItem else cleanName raw

example : cleanName (lit "  club   SANDWICH! ") = lit "Club Sandwich" := by decide
example : cleanName (lit "Cola_Zero") = lit "Cola_Zero" := by decide
example : cleanName (lit "@#!") = lit "" := by decide

/-- An item record as assembled in app.py lines 69-74.  `unit_price` and
`total_price` are the exact values of the Python floats involved. -/
structure Item where
  name : Str
  qty : Nat
  unit_price : ℚ
  total_price : ℚ
deriving DecidableEq, Repr

/-- Round a rational to the nearest integer, ties to even: the behaviour of
Python 3 `round` (on values represented exactly).  Computed on the
normalized fraction `num/den`: the floor is `fdiv num den`, the fractional
part is `fmod num den / den`, and comparing it with one half is comparing
`2 * fmod num den` with `den`. -/
def roundHalfEven (q : ℚ) : ℤ :=
  let n := q.num
  let d : ℤ := (q.den : ℤ)
  let f := Int.fdiv n d
  let m := Int.fmod n d
  if 2 * m < d then f
  else if d < 2 * m then f + 1
  else if f % 2 = 0 then f else f + 1

/-- Python `round(q, 2)`. -/
def round2 (q : ℚ) : ℚ := (roundHalfEven (q * 100) : ℚ) / 100

example : round2 (1206/1000) = 121/100 := by with_unfolding_all decide
example : round2 (125/1000) = 12/100 := by with_unfolding_all decide
example : round2 (135/1000) = 14/100 := by with_unfolding_all decide
example : round2 5 = 5 := by with_unfolding_all decide

/-- Quantity and raw name chosen for a candidate line, app.py lines 46-61.
`lines` is the full normalized sequence (`text_lines`), `i` the position of
the line, `lc` its `line_clean`.  When the quantity pattern matches,
`int(group 1)` is taken with fallback 1 (the `try/except`) and the name is
group 2.  Otherwise, for `i > 0` the previous line is used as name unless
it is denylisted (in which case `item_name` keeps the initial `""`), and
for `i = 0` the name is `line_clean` itself. -/
def nameQtySplit (lines : List Str) (i : Nat) (lc : Str) : Nat × Str :=
  match qtyMatch lc with
  | some (ds, restName) => ((pyInt ds).getD 1, restName)
  | none =>
    if 0 < i then
      let prev := (lines.get? (i - 1)).getD []
      if isIgnored prev then (1, []) else (1, prev)
    else (1, lc)

/-- Body of the `for i, line in enumerate(text_lines)` loop of
`extract_items` (app.py lines 32-74): returns the item record the line
contributes, or `none` when the line is denylisted or has no price. -/
def extractLine (lines : List Str) (i : Nat) (line : Str) : Option Item :=
  if isIgnored line then none
  else
    match searchPrice (foldCurrency line) with
    | none => none
    | some g2 =>
      let price : ℚ := (centsOf g2 : ℚ) / 100
      let qn := nameQtySplit lines i (lineCleanOf line)
      some { name := displayName qn.2
             qty := qn.1
             unit_price := if 0 < qn.1 then round2 (price / (qn.1 : ℚ)) else price
             total_price := price }

/-- The item table built by `extract_items` from the normalized OCR lines
(app.py lines 30-76), in original line order. -/
def extract_items (lines : List Str) : List Item :=
  lines.enum.filterMap (fun p => extractLine lines p.1 p.2)

example : extract_items [lit "2x Club Sandwich EGP 120.00"] =
    [{ name := lit "Club Sandwich", qty := 2, unit_price := 60, total_price := 120 }] := by
  with_unfolding_all decide

example : extract_items [lit "Grilled Chicken", lit "EGP 150.00"] =
    [{ name := lit "Grilled Chicken", qty := 1, unit_price := 150, total_price := 150 }] := by
  with_unfolding_all decide

example : extract_items [lit "Subtotal EGP 450.00"] = [] := by decide

/-- Bill summary of app.py lines 211-225, keyed as in the `summary` dict;
`per_person` is the separately computed split (line 216).  The source
establishment's convention: 12% service on the item total, 14% VAT on the
service-inclusive subtotal. -/
structure Summary where
  base : ℚ
  service : ℚ
  subtotal : ℚ
  vat : ℚ
  tip : ℚ
  final : ℚ
  per_person : ℚ
deriving DecidableEq, Repr

/-- Bill computation of app.py lines 211-216, on the selected items'
totals, the tip and the party size:
`service = round(base*0.12, 2)`, `subtotal = round(base+service, 2)`,
`vat = round(subtotal*0.14, 2)`, `final = round(subtotal+vat+tip, 2)`,
`per_person = round(final/people, 2)`. -/
def computeSummary (totals : List ℚ) (tip : ℚ) (people : Nat) : Summary :=
  let base := totals.sum
  let service := round2 (base * (12/100 : ℚ))
  let subtotal := round2 (base + service)
  let vat := round2 (subtotal * (14/100 : ℚ))
  let final := round2 (subtotal + vat + tip)
  let per_person := round2 (final / (people : ℚ))
  { base, service, subtotal, vat, tip, final, per_person }

/-- Find the leftmost price-pattern match: returns the characters before
the match and the remainder after it.  This is the single-occurrence view
of the scan that `re.sub` iterates. -/
def findPrice : Str → Option (Str × Str)
  | [] => none
  | c :: r =>
    match priceAt (c :: r) with
    | some (_, rest) => some ([], rest)
    | none => (findPrice r).map (fun p => (c :: p.1, p.2))

/-- Fueled removal of price matches, one leftmost match at a time:
remove the first remaining match and continue after it. -/
def subPriceSpecAux : Nat → Str → Str
  | 0, s => s
  | fuel+1, s =>
    match findPrice s with
    | none => s
    | some (pre, rest) => pre ++ subPriceSpecAux fuel rest

/-- Removal of every non-overlapping price-pattern span, phrased as
repeatedly deleting the leftmost remaining match and continuing after it
(the amended reading of the name-source step). -/
def subPriceSpec (s : Str) : Str := subPriceSpecAux s.length s

/-- Case-insensitive prefix test, for the spec-modelled currency folding. -/
def ciPrefixOf (pat s : Str) : Bool := (lower pat).isPrefixOf (lower s)

/-- Fueled case-insensitive replace-all, for the spec-modelled folding. -/
def replaceAllCIAux (pat rep : Str) : Nat → Str → Str
  | _, [] => []
  | 0, s => s
  | fuel+1, c :: rest =>
    if !pat.isEmpty && ciPrefixOf pat (c :: rest) then
      rep ++ replaceAllCIAux pat rep fuel ((c :: rest).drop pat.length)
    else
      c :: replaceAllCIAux pat rep fuel rest

/-- Modelled from the spec: currency folding that replaces every occurrence
of any recognized variant with the canonical marker, with a case-sensitive
match not required (claim C3's reading).  The source has no such function;
its folding uses the case-sensitive `str.replace`. -/
def foldCurrencyCI (line : Str) : Str :=
  currency_variants.foldl
    (fun s cur => replaceAllCIAux cur (lit "EGP") s.length s) line

/-- Modelled from the spec: name cleanup as claim C6 reads it, stripping
every character that is not a letter, digit, or whitespace — so underscores
are removed too — then collapsing, trimming and title-casing.  The source's
`re.sub(r'[^\w\s]', '', ...)` instead keeps underscores (`\w` matches
them). -/
def cleanNameSpecC6 (s : Str) : Str :=
  pyTitle (joinSpace (splitWs (s.filter (fun c => c.isAlphanum || isWs c))))

/-- Bill summary fields as the spec's §4.5 names them. -/
structure SpecSummary where
  subtotal : ℚ
  service_amount : ℚ
  vat_base : ℚ
  vat_amount : ℚ
  tip : ℚ
  grand_total : ℚ
  per_person : ℚ
deriving DecidableEq, Repr

/-- Modelled from the spec: `compute_summary` of §4.5, with unrounded
intermediate values (rounding only at the presentation boundary, which is
left to the caller).  The source instead rounds every step. -/
def computeSummarySpec (service_pct vat_pct : ℚ) (totals : List ℚ)
    (tip : ℚ) (party_size : Nat) : SpecSummary :=
  let subtotal := totals.sum
  let service_amount := subtotal * service_pct / 100
  let vat_base := subtotal + service_amount
  let vat_amount := vat_base * vat_pct / 100
  let grand_total := subtotal + service_amount + vat_amount + tip
  let per_person := grand_total / (party_size : ℚ)
  { subtotal, service_amount, vat_base, vat_amount, tip, grand_total, per_person }

lemma roundHalfEven_intCast (m : ℤ) : roundHalfEven (m : ℚ) = m := by
  unfold roundHalfEven
  simp [Rat.intCast_num, Rat.intCast_den, Int.fdiv_one, Int.fmod_one]

lemma round2_intCast (m : ℤ) : round2 ((m : ℤ) : ℚ) = (m : ℚ) := by
  unfold round2
  have h : ((m : ℚ) * 100) = (((m * 100 : ℤ) : ℤ) : ℚ) := by push_cast; ring
  rw [h, roundHalfEven_intCast]
  push_cast
  field_simp

lemma round2_cents (m : ℤ) : round2 ((m : ℚ) / 100) = (m : ℚ) / 100 := by
  unfold round2
  have h : ((m : ℚ) / 100 * 100) = ((m : ℤ) : ℚ) := by field_simp
  rw [h, roundHalfEven_intCast]

example : computeSummary [100] 5 2 =
    { base := 100, service := 12, subtotal := 112, vat := 1568/100,
      tip := 5, final := 13268/100, per_person := 6634/100 } := by
  have h0 : ([100] : List ℚ).sum = 100 := by norm_num
  have r1 : round2 ((100 : ℚ) * (12/100)) = 12 := by
    have e : ((100 : ℚ) * (12/100)) = ((12 : ℤ) : ℚ) := by norm_num
    rw [e, round2_intCast]; norm_num
  have r2 : round2 ((100 : ℚ) + 12) = 112 := by
    have e : ((100 : ℚ) + 12) = ((112 : ℤ) : ℚ) := by norm_num
    rw [e, round2_intCast]; norm_num
  have r3 : round2 ((112 : ℚ) * (14/100)) = 1568/100 := by
    have e : ((112 : ℚ) * (14/100)) = ((1568 : ℤ) : ℚ) / 100 := by norm_num
    rw [e, round2_cents]; norm_num
  have r4 : round2 ((112 : ℚ) + 1568/100 + 5) = 13268/100 := by
    have e : ((112 : ℚ) + 1568/100 + 5) = ((13268 : ℤ) : ℚ) / 100 := by norm_num
    rw [e, round2_cents]; norm_num
  have r5 : round2 ((13268/100 : ℚ) / ((2 : Nat) : ℚ)) = 6634/100 := by
    have e : ((13268/100 : ℚ) / ((2 : Nat) : ℚ)) = ((6634 : ℤ) : ℚ) / 100 := by norm_num
    rw [e, round2_cents]; norm_num
  simp only [computeSummary, h0, r1, r2, r3, r4, r5]

lemma dropWhile_len_le (p : Char → Bool) : ∀ s : Str, (s.dropWhile p).length ≤ s.length
  | [] => Nat.le_refl _
  | c :: r => by
    by_cases h : p c
    · rw [List.dropWhile_cons_of_pos h]
      exact (dropWhile_len_le p r).trans (Nat.le_succ _)
    · rw [List.dropWhile_cons_of_neg h]

lemma egpHead_len {s r : Str} (h : egpHead s = some r) : r.length + 3 = s.length := by
  unfold egpHead at h
  split at h
  · split at h
    · injection h with h'
      subst h'
      simp
    · cases h
  · cases h

lemma egpHead_getD_len (s : Str) : ((egpHead s).getD s).length ≤ s.length := by
  cases h : egpHead s with
  | none => simp
  | some r =>
    have := egpHead_len h
    simp only [Option.getD_some]
    omega

lemma numTok_len {s g r : Str} (h : numTok s = some (g, r)) : r.length + 3 ≤ s.length := by
  unfold numTok at h
  split at h
  · rename_i d1 d2 r0 heq
    split at h
    · injection h with h'
      have hr : r0.length = r.length := by
        have := congrArg Prod.snd h'
        simpa using congrArg List.length this
      have h1 : (s.dropWhile isDc).length = r0.length + 3 := by rw [heq]; simp
      have h2 := dropWhile_len_le isDc s
      omega
    · cases h
  · cases h

lemma priceAt_len {s : Str} {g r : Str} (h : priceAt s = some (g, r)) :
    r.length < s.length := by
  unfold priceAt at h
  split at h
  · cases h
  · rename_i g2 r0 heq
    injection h with h'
    obtain ⟨rfl, rfl⟩ := Prod.mk.injEq .. ▸ h'
    have h1 := numTok_len heq
    have h2 := egpHead_getD_len (r0.dropWhile isWs)
    have h3 := dropWhile_len_le isWs r0
    have h4 := dropWhile_len_le isWs ((egpHead s).getD s)
    have h5 := egpHead_getD_len s
    omega

lemma subPriceAux_fuel : ∀ f g (s : Str), s.length ≤ f → s.length ≤ g →
    subPriceAux f s = subPriceAux g s := by
  intro f
  induction f with
  | zero =>
    intro g s hf _
    have hs : s = [] := List.length_eq_zero.mp (Nat.le_zero.mp hf)
    subst hs
    cases g <;> rfl
  | succ f ih =>
    intro g s hf hg
    cases s with
    | nil => cases g <;> rfl
    | cons c rest =>
      cases g with
      | zero => simp at hg
      | succ g' =>
        simp only [subPriceAux]
        cases hp : priceAt (c :: rest) with
        | some pr =>
          have hl := priceAt_len (g := pr.1) (r := pr.2) (by rw [hp])
          simp only [List.length_cons] at hf hg hl
          exact ih g' pr.2 (by omega) (by omega)
        | none =>
          simp only [List.length_cons] at hf hg
          exact congrArg (c :: ·) (ih g' rest (by omega) (by omega))

lemma subPrice_nil : subPrice [] = [] := rfl

lemma subPrice_cons (c : Char) (rest : Str) :
    subPrice (c :: rest) =
      match priceAt (c :: rest) with
      | some (_, r) => subPrice r
      | none => c :: subPrice rest := by
  unfold subPrice
  simp only [List.length_cons, subPriceAux]
  cases hp : priceAt (c :: rest) with
  | some pr =>
    have hl := priceAt_len (g := pr.1) (r := pr.2) (by rw [hp])
    simp only [List.length_cons] at hl
    exact subPriceAux_fuel rest.length pr.2.length pr.2 (by omega) (by omega)
  | none =>
    rfl

lemma replaceAllAux_fuel (pat rep : Str) : ∀ f g (s : Str), s.length ≤ f → s.length ≤ g →
    replaceAllAux pat rep f s = replaceAllAux pat rep g s := by
  intro f
  induction f with
  | zero =>
    intro g s hf _
    have hs : s = [] := List.length_eq_zero.mp (Nat.le_zero.mp hf)
    subst hs
    cases g <;> rfl
  | succ f ih =>
    intro g s hf hg
    cases s with
    | nil => cases g <;> rfl
    | cons c rest =>
      cases g with
      | zero => simp at hg
      | succ g' =>
        simp only [replaceAllAux]
        split
        · rename_i hcond
          have hpat : 0 < pat.length := by
            rcases Bool.and_eq_true .. ▸ hcond with ⟨h1, -⟩
            simp only [Bool.not_eq_true', List.isEmpty_eq_false] at h1
            exact List.length_pos.mpr h1
          have hd : ((c :: rest).drop pat.length).length ≤ rest.length := by
            simp only [List.length_drop, List.length_cons]
            omega
          simp only [List.length_cons] at hf hg
          exact congrArg (rep ++ ·) (ih g' _ (by omega) (by omega))
        · simp only [List.length_cons] at hf hg
          exact congrArg (c :: ·) (ih g' rest (by omega) (by omega))

lemma replaceAll_nil (pat rep : Str) : replaceAll pat rep [] = [] := rfl

lemma replaceAll_cons (pat rep : Str) (c : Char) (rest : Str) :
    replaceAll pat rep (c :: rest) =
      if !pat.isEmpty && pat.isPrefixOf (c :: rest) then
        rep ++ replaceAll pat rep ((c :: rest).drop pat.length)
      else
        c :: replaceAll pat rep rest := by
  unfold replaceAll
  simp only [List.length_cons, replaceAllAux]
  split
  · rename_i hcond
    have hpat : 0 < pat.length := by
      rcases Bool.and_eq_true .. ▸ hcond with ⟨h1, -⟩
      simp only [Bool.not_eq_true', List.isEmpty_eq_false] at h1
      exact List.length_pos.mpr h1
    refine congrArg (rep ++ ·) (replaceAllAux_fuel pat rep _ _ _ ?_ ?_) <;>
      simp only [List.length_drop, List.length_cons] <;> omega
  · rfl

lemma findPrice_len : ∀ {s pre rest : Str}, findPrice s = some (pre, rest) →
    rest.length < s.length := by
  intro s
  induction s with
  | nil => intro pre rest h; cases h
  | cons c r ih =>
    intro pre rest h
    unfold findPrice at h
    cases hp : priceAt (c :: r) with
    | some pr =>
      rw [hp] at h
      injection h with h'
      have : pr.2.length = rest.length := by
        have := congrArg Prod.snd h'
        simpa using congrArg List.length this
      have hl := priceAt_len (g := pr.1) (r := pr.2) (by rw [hp])
      omega
    | none =>
      rw [hp] at h
      cases hf : findPrice r with
      | none => rw [hf] at h; cases h
      | some pr2 =>
        rw [hf] at h
        injection h with h'
        have : pr2.2.length = rest.length := by
          have := congrArg Prod.snd h'
          simpa using congrArg List.length this
        have := ih (show findPrice r = some (pr2.1, pr2.2) by rw [hf])
        simp only [List.length_cons]
        omega

lemma subPriceSpecAux_fuel : ∀ f g (s : Str), s.length ≤ f → s.length ≤ g →
    subPriceSpecAux f s = subPriceSpecAux g s := by
  intro f
  induction f with
  | zero =>
    intro g s hf _
    have hs : s = [] := List.length_eq_zero.mp (Nat.le_zero.mp hf)
    subst hs
    cases g with
    | zero => rfl
    | succ g' => simp [subPriceSpecAux, findPrice]
  | succ f ih =>
    intro g s hf hg
    cases g with
    | zero =>
      have hs : s = [] := List.length_eq_zero.mp (Nat.le_zero.mp hg)
      subst hs
      simp [subPriceSpecAux, findPrice]
    | succ g' =>
      simp only [subPriceSpecAux]
      cases hfp : findPrice s with
      | none => rfl
      | some pr =>
        have hl := findPrice_len (show findPrice s = some (pr.1, pr.2) by rw [hfp])
        exact congrArg (pr.1 ++ ·) (ih g' pr.2 (by omega) (by omega))

lemma subPriceSpec_eq (s : Str) :
    subPriceSpec s =
      match findPrice s with
      | none => s
      | some (pre, rest) => pre ++ subPriceSpec rest := by
  cases s with
  | nil => rfl
  | cons c r =>
    unfold subPriceSpec
    simp only [List.length_cons, subPriceSpecAux]
    cases hfp : findPrice (c :: r) with
    | none => rfl
    | some pr =>
      have hl := findPrice_len (show findPrice (c :: r) = some (pr.1, pr.2) by rw [hfp])
      simp only [List.length_cons] at hl
      exact congrArg (pr.1 ++ ·) (subPriceSpecAux_fuel r.length pr.2.length pr.2 (by omega) (by omega))

lemma subPrice_eq_spec_aux : ∀ n (s : Str), s.length ≤ n → subPrice s = subPriceSpec s := by
  intro n
  induction n with
  | zero =>
    intro s hs
    have h : s = [] := List.length_eq_zero.mp (Nat.le_zero.mp hs)
    subst h
    rfl
  | succ n ih =>
    intro s hs
    cases s with
    | nil => rfl
    | cons c r =>
      rw [subPrice_cons, subPriceSpec_eq]
      cases hp : priceAt (c :: r) with
      | some pr =>
        have hf : findPrice (c :: r) = some ([], pr.2) := by
          unfold findPrice
          rw [hp]
        rw [hf]
        simp only [List.nil_append]
        have hl := priceAt_len (g := pr.1) (r := pr.2) (by rw [hp])
        simp only [List.length_cons] at hs hl
        exact ih pr.2 (by omega)
      | none =>
        cases hfr : findPrice r with
        | none =>
          have hf : findPrice (c :: r) = none := by
            unfold findPrice
            rw [hp, hfr]
            rfl
          rw [hf]
          have h2 : subPriceSpec r = r := by rw [subPriceSpec_eq, hfr]
          simp only [List.length_cons] at hs
          rw [ih r (by omega), h2]
        | some pr2 =>
          have hf : findPrice (c :: r) = some (c :: pr2.1, pr2.2) := by
            unfold findPrice
            rw [hp, hfr]
            rfl
          rw [hf]
          have h2 : subPriceSpec r = pr2.1 ++ subPriceSpec pr2.2 := by
            rw [subPriceSpec_eq, hfr]
          simp only [List.length_cons] at hs
          show c :: subPrice r = (c :: pr2.1) ++ subPriceSpec pr2.2
          rw [ih r (by omega), h2, List.cons_append]

lemma splitWsAux_fuel : ∀ f g (s : Str), s.length ≤ f → s.length ≤ g →
    splitWsAux f s = splitWsAux g s := by
  intro f
  induction f with
  | zero =>
    intro g s hf _
    have hs : s = [] := List.length_eq_zero.mp (Nat.le_zero.mp hf)
    subst hs
    cases g <;> rfl
  | succ f ih =>
    intro g s hf hg
    cases s with
    | nil => cases g <;> rfl
    | cons c rest =>
      cases g with
      | zero => simp at hg
      | succ g' =>
        simp only [splitWsAux]
        simp only [List.length_cons] at hf hg
        by_cases hc : isWs c
        · rw [if_pos hc, if_pos hc]
          exact ih g' rest (by omega) (by omega)
        · rw [if_neg hc, if_neg hc]
          have hd : ((c :: rest).dropWhile (fun x => !isWs x)).length ≤ rest.length := by
            rw [List.dropWhile_cons_of_pos (by simp [hc])]
            exact dropWhile_len_le _ rest
          exact congrArg _ (ih g' _ (by omega) (by omega))

lemma splitWs_nil : splitWs [] = [] := rfl

lemma splitWs_cons (c : Char) (rest : Str) :
    splitWs (c :: rest) =
      if isWs c then splitWs rest
      else ((c :: rest).takeWhile (fun x => !isWs x)) ::
        splitWs ((c :: rest).dropWhile (fun x => !isWs x)) := by
  unfold splitWs
  simp only [List.length_cons, splitWsAux]
  by_cases hc : isWs c
  · rw [if_pos hc, if_pos hc]
  · rw [if_neg hc, if_neg hc]
    have hd : ((c :: rest).dropWhile (fun x => !isWs x)).length ≤ rest.length := by
      rw [List.dropWhile_cons_of_pos (by simp [hc])]
      exact dropWhile_len_le _ rest
    exact congrArg _ (splitWsAux_fuel rest.length _ _ (by omega) (by omega))

lemma mem_splitWs : ∀ n (l : Str), l.length ≤ n → ∀ c : Char, c ∈ l → isWs c = false →
    ∃ w, w ∈ splitWs l ∧ c ∈ w := by
  intro n
  induction n with
  | zero =>
    intro l hl c hc _
    have : l = [] := List.length_eq_zero.mp (Nat.le_zero.mp hl)
    subst this
    cases hc
  | succ n ih =>
    intro l hl c hc hw
    cases l with
    | nil => cases hc
    | cons x r =>
      rw [splitWs_cons]
      simp only [List.length_cons] at hl
      by_cases hx : isWs x
      · rw [if_pos hx]
        have hcr : c ∈ r := by
          rcases List.mem_cons.mp hc with rfl | h
          · rw [hx] at hw; cases hw
          · exact h
        exact ih r (by omega) c hcr hw
      · rw [if_neg hx]
        have hsplit : c ∈ (x :: r).takeWhile (fun y => !isWs y) ∨
            c ∈ (x :: r).dropWhile (fun y => !isWs y) := by
          rw [← List.mem_append, List.takeWhile_append_dropWhile]
          exact hc
        rcases hsplit with h | h
        · exact ⟨_, List.mem_cons_self _ _, h⟩
        · have hd : ((x :: r).dropWhile (fun y => !isWs y)).length ≤ n := by
            rw [List.dropWhile_cons_of_pos (by simp [hx])]
            have := dropWhile_len_le (fun y => !isWs y) r
            omega
          obtain ⟨w, hw1, hw2⟩ := ih _ hd c h hw
          exact ⟨w, List.mem_cons_of_mem _ hw1, hw2⟩

lemma mem_joinSpace {c : Char} : ∀ {ws : List Str} {w : Str}, w ∈ ws → c ∈ w →
    c ∈ joinSpace ws := by
  intro ws
  induction ws with
  | nil => intro w h; cases h
  | cons x rest ih =>
    intro w hmem hc
    cases rest with
    | nil =>
      rcases List.mem_cons.mp hmem with rfl | h
      · exact hc
      · cases h
    | cons y t =>
      show c ∈ x ++ ' ' :: joinSpace (y :: t)
      rcases List.mem_cons.mp hmem with rfl | h
      · exact List.mem_append_left _ hc
      · exact List.mem_append_right _ (List.mem_cons_of_mem _ (ih h hc))

lemma mem_titleMap {c : Char} (hna : c.isAlpha = false) :
    ∀ (b : Bool) (s : Str), c ∈ s → c ∈ titleMap b s := by
  intro b s
  induction s generalizing b with
  | nil => intro h; cases h
  | cons x r ih =>
    intro h
    unfold titleMap
    rcases List.mem_cons.mp h with rfl | h2
    · rw [hna]
      simp
    · exact List.mem_cons_of_mem _ (ih x.isAlpha h2)

lemma containsSub_cons_false {pat : Str} {c : Char} {rest : Str}
    (h : containsSub pat (c :: rest) = false) :
    pat.isPrefixOf (c :: rest) = false ∧ containsSub pat rest = false := by
  unfold containsSub at h
  exact Bool.or_eq_false_iff.mp h

lemma replaceAll_id (pat rep : Str) : ∀ s : Str, containsSub pat s = false →
    replaceAll pat rep s = s := by
  intro s
  induction s with
  | nil => intro _; rfl
  | cons c rest ih =>
    intro h
    obtain ⟨h1, h2⟩ := containsSub_cons_false h
    rw [replaceAll_cons]
    rw [if_neg (by simp [h1])]
    rw [ih h2]

lemma foldCurrency_id {s : Str} (h : ∀ v ∈ currency_variants, containsSub v s = false) :
    foldCurrency s = s := by
  have h1 := h (lit "EGP") (by decide)
  have h2 := h (lit "LE") (by decide)
  have h3 := h (lit "L.E.") (by decide)
  have h4 := h (lit "L.E") (by decide)
  have h5 := h (lit "جنيه") (by decide)
  show replaceAll (lit "جنيه") (lit "EGP")
      (replaceAll (lit "L.E") (lit "EGP")
        (replaceAll (lit "L.E.") (lit "EGP")
          (replaceAll (lit "LE") (lit "EGP")
            (replaceAll (lit "EGP") (lit "EGP") s)))) = s
  rw [replaceAll_id _ _ s h1, replaceAll_id _ _ s h2, replaceAll_id _ _ s h3,
    replaceAll_id _ _ s h4, replaceAll_id _ _ s h5]

lemma isPrefixOf_mem {pat l : Str} (h : pat.isPrefixOf l = true) :
    ∀ c, c ∈ pat → c ∈ l := by
  induction pat generalizing l with
  | nil => intro c hc; cases hc
  | cons a as ih =>
    intro c hc
    cases l with
    | nil => cases h
    | cons b bs =>
      rw [List.isPrefixOf_cons₂] at h
      obtain ⟨h1, h2⟩ := Bool.and_eq_true .. ▸ h
      have hab : a = b := by simpa using h1
      rcases List.mem_cons.mp hc with rfl | hc2
      · exact hab ▸ List.mem_cons_self _ _
      · exact List.mem_cons_of_mem _ (ih h2 c hc2)

lemma containsSub_false_of_witness {pat hay : Str} {c : Char}
    (hc : c ∈ pat) (hn : c ∉ hay) : containsSub pat hay = false := by
  induction hay with
  | nil =>
    have : pat ≠ [] := fun h => by subst h; cases hc
    simpa [containsSub, List.isEmpty_eq_false]
  | cons x t ih =>
    unfold containsSub
    rw [Bool.or_eq_false_iff]
    constructor
    · by_contra hpre
      rw [Bool.not_eq_false] at hpre
      exact hn (isPrefixOf_mem hpre c hc)
    · exact ih (fun h => hn (List.mem_cons_of_mem _ h))

lemma not_mem_onesLine {c : Char} (h1 : c ≠ '1') (h2 : c ∉ ([' ', '5', '.', '0', '0'] : Str)) :
    ∀ n, c ∉ (List.replicate n '1' ++ [' ', '5', '.', '0', '0'] : Str) := by
  intro n hmem
  rcases List.mem_append.mp hmem with h | h
  · exact h1 (List.eq_of_mem_replicate h)
  · exact h2 h

lemma lower_onesLine (n : Nat) :
    lower (List.replicate n '1' ++ [' ', '5', '.', '0', '0']) =
      List.replicate n '1' ++ [' ', '5', '.', '0', '0'] := by
  unfold lower
  rw [List.map_append, List.map_replicate]
  rfl

lemma isIgnored_onesLine (n : Nat) :
    isIgnored (List.replicate n '1' ++ [' ', '5', '.', '0', '0']) = false := by
  unfold isIgnored ignore_keywords
  simp only [List.any_cons, List.any_nil, Bool.or_eq_false_iff, lower_onesLine]
  refine ⟨?_, ?_, ?_, ?_, ?_, ?_, ?_, ?_, ?_, ?_, ?_, ?_, ?_⟩
  · exact containsSub_false_of_witness (c := 's') (by decide)
      (not_mem_onesLine (by decide) (by decide) n)
  · exact containsSub_false_of_witness (c := 'v') (by decide)
      (not_mem_onesLine (by decide) (by decide) n)
  · exact containsSub_false_of_witness (c := 't') (by decide)
      (not_mem_onesLine (by decide) (by decide) n)
  · exact containsSub_false_of_witness (c := 's') (by decide)
      (not_mem_onesLine (by decide) (by decide) n)
  · exact containsSub_false_of_witness (c := 't') (by decide)
      (not_mem_onesLine (by decide) (by decide) n)
  · exact containsSub_false_of_witness (c := 'c') (by decide)
      (not_mem_onesLine (by decide) (by decide) n)
  · exact containsSub_false_of_witness (c := 'c') (by decide)
      (not_mem_onesLine (by decide) (by decide) n)
  · exact containsSub_false_of_witness (c := 'p') (by decide)
      (not_mem_onesLine (by decide) (by decide) n)
  · exact containsSub_false_of_witness (c := 'b') (by decide)
      (not_mem_onesLine (by decide) (by decide) n)
  · exact containsSub_false_of_witness (c := '%') (by decide)
      (not_mem_onesLine (by decide) (by decide) n)
  · exact containsSub_false_of_witness (c := 't') (by decide)
      (not_mem_onesLine (by decide) (by decide) n)
  · exact containsSub_false_of_witness (c := 'd') (by decide)
      (not_mem_onesLine (by decide) (by decide) n)
  · exact trivial

lemma foldCurrency_onesLine (n : Nat) :
    foldCurrency (List.replicate n '1' ++ [' ', '5', '.', '0', '0']) =
      List.replicate n '1' ++ [' ', '5', '.', '0', '0'] := by
  apply foldCurrency_id
  intro v hv
  fin_cases hv
  · exact containsSub_false_of_witness (c := 'E') (by decide)
      (not_mem_onesLine (by decide) (by decide) n)
  · exact containsSub_false_of_witness (c := 'L') (by decide)
      (not_mem_onesLine (by decide) (by decide) n)
  · exact containsSub_false_of_witness (c := 'L') (by decide)
      (not_mem_onesLine (by decide) (by decide) n)
  · exact containsSub_false_of_witness (c := 'L') (by decide)
      (not_mem_onesLine (by decide) (by decide) n)
  · exact containsSub_false_of_witness (c := 'ج') (by decide)
      (not_mem_onesLine (by decide) (by decide) n)

lemma takeWhile_onesLine {p : Char → Bool} (hp : p '1' = true) (hsp : p ' ' = false) :
    ∀ n, (List.replicate n '1' ++ ([' ', '5', '.', '0', '0'] : Str)).takeWhile p =
        List.replicate n '1' ∧
      (List.replicate n '1' ++ ([' ', '5', '.', '0', '0'] : Str)).dropWhile p =
        [' ', '5', '.', '0', '0'] := by
  intro n
  induction n with
  | zero =>
    simp only [List.replicate, List.nil_append]
    rw [List.takeWhile_cons_of_neg (by simp [hsp]), List.dropWhile_cons_of_neg (by simp [hsp])]
    exact ⟨rfl, rfl⟩
  | succ n ih =>
    rw [List.replicate_succ, List.cons_append,
      List.takeWhile_cons_of_pos (by simp [hp]), List.dropWhile_cons_of_pos (by simp [hp]),
      ih.1, ih.2]
    exact ⟨rfl, rfl⟩

lemma egpHead_cons_none {c : Char} (h : ¬ c.toLower = 'e') (s : Str) :
    egpHead (c :: s) = none := by
  unfold egpHead
  cases s with
  | nil => rfl
  | cons c2 t =>
    cases t with
    | nil => rfl
    | cons c3 r => exact if_neg (fun hh => h hh.1)

lemma priceAt_onesLine (k : Nat) :
    priceAt (List.replicate (k+1) '1' ++ [' ', '5', '.', '0', '0']) = none := by
  have hegp : egpHead (List.replicate (k+1) '1' ++ [' ', '5', '.', '0', '0']) = none := by
    rw [List.replicate_succ, List.cons_append]
    exact egpHead_cons_none (by decide) _
  have hws : (List.replicate (k+1) '1' ++
      ([' ', '5', '.', '0', '0'] : Str)).dropWhile isWs =
      List.replicate (k+1) '1' ++ [' ', '5', '.', '0', '0'] := by
    rw [List.replicate_succ, List.cons_append, List.dropWhile_cons_of_neg (by simp [isWs])]
  have hnum : numTok (List.replicate (k+1) '1' ++ [' ', '5', '.', '0', '0']) = none := by
    unfold numTok
    rw [(takeWhile_onesLine (p := isDc) (by decide) (by decide) (k+1)).2]
    rfl
  unfold priceAt
  rw [hegp, Option.getD_none, hws, hnum]

lemma searchPrice_onesLine :
    ∀ n, searchPrice (List.replicate n '1' ++ [' ', '5', '.', '0', '0']) =
      some ['5', '.', '0', '0'] := by
  intro n
  induction n with
  | zero => decide
  | succ n ih =>
    rw [List.replicate_succ, List.cons_append]
    unfold searchPrice
    rw [show ('1' :: (List.replicate n '1' ++ [' ', '5', '.', '0', '0'])) =
      (List.replicate (n+1) '1' ++ [' ', '5', '.', '0', '0']) by
        rw [List.replicate_succ, List.cons_append], priceAt_onesLine n]
    exact ih

lemma subPrice_onesLine :
    ∀ n, subPrice (List.replicate n '1' ++ [' ', '5', '.', '0', '0']) =
      List.replicate n '1' := by
  intro n
  induction n with
  | zero => decide
  | succ n ih =>
    rw [List.replicate_succ, List.cons_append, subPrice_cons,
      show ('1' :: (List.replicate n '1' ++ [' ', '5', '.', '0', '0'])) =
        (List.replicate (n+1) '1' ++ [' ', '5', '.', '0', '0']) by
          rw [List.replicate_succ, List.cons_append], priceAt_onesLine n]
    rw [ih, ← List.replicate_succ]

lemma strip_ones (n : Nat) : strip (List.replicate n '1') = List.replicate n '1' := by
  have h : ∀ m, (List.replicate m '1').dropWhile isWs = List.replicate m '1' := by
    intro m
    cases m with
    | zero => rfl
    | succ m => rw [List.replicate_succ, List.dropWhile_cons_of_neg (by simp [isWs])]
  unfold strip
  rw [h, List.reverse_replicate, h, List.reverse_replicate]

lemma lineCleanOf_onesLine (n : Nat) :
    lineCleanOf (List.replicate n '1' ++ [' ', '5', '.', '0', '0']) =
      List.replicate n '1' := by
  unfold lineCleanOf
  rw [foldCurrency_onesLine, subPrice_onesLine, strip_ones]

lemma qtyMatch_ones (n : Nat) :
    qtyMatch (List.replicate (n+1) '1') = some (List.replicate (n+1) '1', []) := by
  have ht : ∀ m, (List.replicate m '1').takeWhile Char.isDigit = List.replicate m '1' := by
    intro m
    induction m with
    | zero => rfl
    | succ m ih => rw [List.replicate_succ, List.takeWhile_cons_of_pos (by decide), ih]
  have hd : ∀ m, (List.replicate m '1').dropWhile Char.isDigit = [] := by
    intro m
    induction m with
    | zero => rfl
    | succ m ih => rw [List.replicate_succ, List.dropWhile_cons_of_pos (by decide), ih]
  unfold qtyMatch
  rw [ht, hd]
  rw [if_neg (by simp [List.isEmpty_eq_false])]
  rfl

lemma pyInt_ones : pyInt (List.replicate 4301 '1') = none := by
  have h : (List.replicate 4301 '1').length = 4301 := List.length_replicate ..
  unfold pyInt
  rw [h, if_pos (by norm_num)]

/-- Claim C7: every input line that case-insensitively contains a token of
the denylist (subtotal, vat, total, service, thank, count, cash, payment,
balance, %, tip, delivery) produces no item record, even when the line also
contains a price-shaped token. -/
theorem C7_denylist_exclusion (lines : List Str) (i : Nat) (line : Str)
    (h : isIgnored line = true) : extractLine lines i line = none := by
  unfold extractLine
  rw [if_pos h]

theorem C7_witness :
    isIgnored (lit "Subtotal EGP 450.00") = true ∧
      extractLine [lit "Subtotal EGP 450.00"] 0 (lit "Subtotal EGP 450.00") = none :=
  ⟨by decide, C7_denylist_exclusion _ 0 _ (by decide)⟩

/-- Claim C9: a candidate line without a price token contributes no item
record, and an input all of whose lines contribute nothing makes
`extract_items` return the empty list; both are ordinary values, not
errors (every function here is total). -/
theorem C9_no_price_empty_result :
    (∀ (lines : List Str) (i : Nat) (line : Str), isIgnored line = false →
        searchPrice (foldCurrency line) = none → extractLine lines i line = none) ∧
      (∀ lines : List Str, (∀ p ∈ lines.enum, extractLine lines p.1 p.2 = none) →
        extract_items lines = []) := by
  constructor
  · intro lines i line h1 h2
    unfold extractLine
    rw [if_neg (by simp [h1]), h2]
  · intro lines h
    unfold extract_items
    exact List.filterMap_eq_nil_iff.mpr h

theorem C9_witness :
    extractLine [lit "Hello"] 0 (lit "Hello") = none ∧ extract_items [lit "Hello"] = [] :=
  ⟨C9_no_price_empty_result.1 [lit "Hello"] 0 (lit "Hello") (by decide) (by decide),
    C9_no_price_empty_result.2 [lit "Hello"] (by decide)⟩

/-- Claim C10: when `line_clean` matches the leading-quantity pattern but
the matched digit run fails Python's numeric parsing (modelled by `pyInt`,
which fails on CPython's integer-string conversion length limit), the
extractor still produces a record and its quantity defaults to 1. -/
theorem C10_malformed_qty_defaults (lines : List Str) (i : Nat)
    (line g2 ds rest : Str)
    (h1 : isIgnored line = false)
    (h2 : searchPrice (foldCurrency line) = some g2)
    (h3 : qtyMatch (lineCleanOf line) = some (ds, rest))
    (h4 : pyInt ds = none) :
    ∃ r : Item, extractLine lines i line = some r ∧ r.qty = 1 := by
  unfold extractLine nameQtySplit
  rw [if_neg (by simp [h1]), h2]
  simp only [h3, h4, Option.getD_none]
  exact ⟨_, rfl, rfl⟩

theorem C10_witness :
    ∃ r : Item,
      extractLine [List.replicate 4301 '1' ++ [' ', '5', '.', '0', '0']] 0
          (List.replicate 4301 '1' ++ [' ', '5', '.', '0', '0']) = some r ∧ r.qty = 1 :=
  C10_malformed_qty_defaults _ 0 _ ['5', '.', '0', '0'] (List.replicate 4301 '1') []
    (isIgnored_onesLine 4301)
    (by rw [foldCurrency_onesLine]; exact searchPrice_onesLine 4301)
    (by rw [lineCleanOf_onesLine]; exact qtyMatch_ones 4300)
    pyInt_ones

/-- Claim C8: on a selection whose totals sum to 100, with the source's
fixed 12% service and 14% VAT, tip 5 and party size 2, the summary is
service 12.00, service-inclusive subtotal (the VAT base) 112.00,
VAT 15.68, final total 132.68 and per-person share 66.34. -/
theorem C8_scenario_d (totals : List ℚ) (h : totals.sum = 100) :
    computeSummary totals 5 2 =
      { base := 100, service := 12, subtotal := 112, vat := 1568/100,
        tip := 5, final := 13268/100, per_person := 6634/100 } := by
  have r1 : round2 ((100 : ℚ) * (12/100)) = 12 := by
    have e : ((100 : ℚ) * (12/100)) = ((12 : ℤ) : ℚ) := by norm_num
    rw [e, round2_intCast]; norm_num
  have r2 : round2 ((100 : ℚ) + 12) = 112 := by
    have e : ((100 : ℚ) + 12) = ((112 : ℤ) : ℚ) := by norm_num
    rw [e, round2_intCast]; norm_num
  have r3 : round2 ((112 : ℚ) * (14/100)) = 1568/100 := by
    have e : ((112 : ℚ) * (14/100)) = ((1568 : ℤ) : ℚ) / 100 := by norm_num
    rw [e, round2_cents]; norm_num
  have r4 : round2 ((112 : ℚ) + 1568/100 + 5) = 13268/100 := by
    have e : ((112 : ℚ) + 1568/100 + 5) = ((13268 : ℤ) : ℚ) / 100 := by norm_num
    rw [e, round2_cents]; norm_num
  have r5 : round2 ((13268/100 : ℚ) / ((2 : Nat) : ℚ)) = 6634/100 := by
    have e : ((13268/100 : ℚ) / ((2 : Nat) : ℚ)) = ((6634 : ℤ) : ℚ) / 100 := by norm_num
    rw [e, round2_cents]; norm_num
  simp only [computeSummary, h, r1, r2, r3, r4, r5]

theorem C8_witness :
    computeSummary [100] 5 2 =
      { base := 100, service := 12, subtotal := 112, vat := 1568/100,
        tip := 5, final := 13268/100, per_person := 6634/100 } :=
  C8_scenario_d [100] (by simp)

/-- Helper evaluation: the bill computation of the source on the single
item total 10.05, tip 0, one person.  Each step is rounded, so the final
total is 12.84. -/
lemma computeSummary_1005 :
    computeSummary [201/20] 0 1 =
      { base := 201/20, service := 121/100, subtotal := 1126/100, vat := 158/100,
        tip := 0, final := 1284/100, per_person := 1284/100 } := by
  have h0 : ([201/20] : List ℚ).sum = 201/20 := by simp
  have r1 : round2 ((201/20 : ℚ) * (12/100)) = 121/100 := by
    have e : ((201/20 : ℚ) * (12/100)) = 1206/1000 := by norm_num
    have v : round2 (1206/1000 : ℚ) = 121/100 := by with_unfolding_all decide
    rw [e, v]
  have r2 : round2 ((201/20 : ℚ) + 121/100) = 1126/100 := by
    have e : ((201/20 : ℚ) + 121/100) = ((1126 : ℤ) : ℚ) / 100 := by norm_num
    rw [e, round2_cents]; norm_num
  have r3 : round2 ((1126/100 : ℚ) * (14/100)) = 158/100 := by
    have e : ((1126/100 : ℚ) * (14/100)) = 15764/10000 := by norm_num
    have v : round2 (15764/10000 : ℚ) = 158/100 := by with_unfolding_all decide
    rw [e, v]
  have r4 : round2 ((1126/100 : ℚ) + 158/100 + 0) = 1284/100 := by
    have e : ((1126/100 : ℚ) + 158/100 + 0) = ((1284 : ℤ) : ℚ) / 100 := by norm_num
    rw [e, round2_cents]; norm_num
  have r5 : round2 ((1284/100 : ℚ) / ((1 : Nat) : ℚ)) = 1284/100 := by
    have e : ((1284/100 : ℚ) / ((1 : Nat) : ℚ)) = ((1284 : ℤ) : ℚ) / 100 := by norm_num
    rw [e, round2_cents]; norm_num
  simp only [computeSummary, h0, r1, r2, r3, r4, r5]

/-- Claim C2, counterexample: the source rounds every intermediate value,
so on base 10.05 its final total is 12.84, while the spec's
round-only-at-presentation computation displays 12.83. -/
theorem C2_counterexample :
    (computeSummary [201/20] 0 1).final = 1284/100 ∧
      round2 ((computeSummarySpec 12 14 [201/20] 0 1).grand_total) = 1283/100 ∧
      (1284/100 : ℚ) ≠ 1283/100 := by
  refine ⟨by rw [computeSummary_1005], ?_, by norm_num⟩
  have e : (computeSummarySpec 12 14 [201/20] 0 1).grand_total = 1283184/100000 := by
    simp only [computeSummarySpec]
    norm_num
  rw [e]
  with_unfolding_all decide

/-- Claim C2, amended: rounding to two decimals is applied at every step of
the computation, not only at presentation — the service amount, the
service-inclusive subtotal, the VAT amount, the final total and the
per-person share are each rounded as they are computed, so every one of
them is a whole number of cents whatever the selected totals, tip and
party size. -/
theorem C2_amended_each_step_rounded (totals : List ℚ) (tip : ℚ) (people : Nat) :
    (∃ a : ℤ, (computeSummary totals tip people).service = (a : ℚ) / 100) ∧
      (∃ a : ℤ, (computeSummary totals tip people).subtotal = (a : ℚ) / 100) ∧
      (∃ a : ℤ, (computeSummary totals tip people).vat = (a : ℚ) / 100) ∧
      (∃ a : ℤ, (computeSummary totals tip people).final = (a : ℚ) / 100) ∧
      (∃ a : ℤ, (computeSummary totals tip people).per_person = (a : ℚ) / 100) :=
  ⟨⟨_, rfl⟩, ⟨_, rfl⟩, ⟨_, rfl⟩, ⟨_, rfl⟩, ⟨_, rfl⟩⟩

/-- Claim C3, counterexample: the source folds currency variants with the
case-sensitive `str.replace`, so the lowercase spelling `le` is not folded,
while the claim's case-insensitive folding would rewrite it to the
canonical marker. -/
theorem C3_counterexample :
    foldCurrency (lit "Pizza le 10.00") = lit "Pizza le 10.00" ∧
      foldCurrencyCI (lit "Pizza le 10.00") = lit "Pizza EGP 10.00" ∧
      foldCurrency (lit "Pizza le 10.00") ≠ foldCurrencyCI (lit "Pizza le 10.00") :=
  ⟨by decide, by decide, by decide⟩

/-- Claim C3, amended: currency folding replaces occurrences of the
recognized variants case-sensitively, exactly as spelled in
`currency_variants`; a line with no exact-case occurrence of any variant is
left unchanged, so lowercase or mixed-case spellings are not folded. -/
theorem C3_case_sensitive_folding (s : Str)
    (h : ∀ v ∈ currency_variants, containsSub v s = false) :
    foldCurrency s = s :=
  foldCurrency_id h

theorem C3_witness : foldCurrency (lit "le 10.00") = lit "le 10.00" :=
  C3_case_sensitive_folding (lit "le 10.00") (by decide)

/-- Claim C5, counterexample: on a line with two price-shaped tokens the
matched total is the first one, yet `line_clean` loses the second token as
well — `re.sub` removes every price span, so the other token does not
remain. -/
theorem C5_counterexample :
    searchPrice (foldCurrency (lit "Cola 5.00 10.00")) = some (lit "5.00") ∧
      lineCleanOf (lit "Cola 5.00 10.00") = lit "Cola" ∧
      containsSub (lit "10.00") (lit "Cola") = false :=
  ⟨by decide, by decide, by decide⟩

/-- Claim C5, amended: `line_clean` is the line with every non-overlapping
price-pattern span removed, scanning left to right and continuing after
each removed span (the `re.sub` semantics), then stripped — not just the
span of the matched total. -/
theorem C5_all_spans_removed (line : Str) :
    lineCleanOf line = strip (subPriceSpec (foldCurrency line)) := by
  unfold lineCleanOf
  rw [subPrice_eq_spec_aux (foldCurrency line).length _ (Nat.le_refl _)]

/-- Claim C6, counterexample: the source's cleanup keeps underscores
(`\w` matches them), so `Cola_Zero` keeps its underscore, while the
claim's letters-digits-whitespace-only cleanup would drop it. -/
theorem C6_counterexample :
    cleanName (lit "Cola_Zero") = lit "Cola_Zero" ∧
      cleanNameSpecC6 (lit "Cola_Zero") = lit "Colazero" ∧
      cleanName (lit "Cola_Zero") ≠ cleanNameSpecC6 (lit "Cola_Zero") :=
  ⟨by decide, by decide, by decide⟩

/-- Claim C6, amended: name cleanup removes every character that is not a
letter, digit, underscore or whitespace — underscores are word characters
and survive — collapses whitespace runs, trims, title-cases, and the
record substitutes the placeholder when the result is empty.  Stated here:
underscores always survive cleanup, and a name of only removable
characters cleans to the empty string. -/
theorem C6_underscore_survives :
    (∀ s : Str, '_' ∈ s → '_' ∈ cleanName s) ∧
      (∀ s : Str, (∀ c ∈ s, (isWordCh c || isWs c) = false) → cleanName s = []) := by
  constructor
  · intro s hs
    unfold cleanName
    apply mem_titleMap (by decide)
    have h1 : '_' ∈ s.filter (fun c => isWordCh c || isWs c) :=
      List.mem_filter.mpr ⟨hs, by decide⟩
    obtain ⟨w, hw1, hw2⟩ :=
      mem_splitWs (s.filter (fun c => isWordCh c || isWs c)).length _ (Nat.le_refl _)
        '_' h1 (by decide)
    exact mem_joinSpace hw1 hw2
  · intro s h
    unfold cleanName
    have hf : s.filter (fun c => isWordCh c || isWs c) = [] := by
      rw [List.filter_eq_nil_iff]
      intro a ha
      simp [h a ha]
    rw [hf]
    rfl

theorem C6_witness :
    '_' ∈ cleanName (lit "co_la") ∧ cleanName (lit "@!#") = [] :=
  ⟨C6_underscore_survives.1 (lit "co_la") (by decide),
    C6_underscore_survives.2 (lit "@!#") (by decide)⟩

/-- Claim C1, counterexample: for a quantity-less candidate line at
position 1 whose predecessor is denylisted, the source leaves the name
empty and records the placeholder, while the claim says the name source
falls back to `line_clean` (here `Cola`). -/
theorem C1_counterexample :
    (extractLine [lit "Subtotal x", lit "Cola EGP 5.00"] 1
        (lit "Cola EGP 5.00")).map Item.name = some unnamedItem ∧
      lineCleanOf (lit "Cola EGP 5.00") = lit "Cola" ∧
      displayName (lit "Cola") = lit "Cola" ∧
      unnamedItem ≠ lit "Cola" :=
  ⟨by with_unfolding_all decide, by decide, by decide, by decide⟩

/-- Claim C1, amended: when the quantity pattern does not match, the
quantity defaults to 1 and the name source is the preceding line if the
position is positive and that line is not denylisted; at position 0 it is
`line_clean`; but when the position is positive and the preceding line is
denylisted, the name is left empty and the record carries the placeholder
`Unnamed Item`, not `line_clean`. -/
theorem C1_name_fallback (lines : List Str) (i : Nat) (line g2 : Str)
    (h1 : isIgnored line = false)
    (h2 : searchPrice (foldCurrency line) = some g2)
    (h3 : qtyMatch (lineCleanOf line) = none) :
    (i = 0 → (extractLine lines i line).map Item.name =
        some (displayName (lineCleanOf line))) ∧
      (∀ prev, 0 < i → lines.get? (i - 1) = some prev → isIgnored prev = false →
        (extractLine lines i line).map Item.name = some (displayName prev)) ∧
      (∀ prev, 0 < i → lines.get? (i - 1) = some prev → isIgnored prev = true →
        (extractLine lines i line).map Item.name = some unnamedItem) ∧
      (extractLine lines i line).map Item.qty = some 1 := by
  refine ⟨?_, ?_, ?_, ?_⟩
  · intro hi
    subst hi
    unfold extractLine nameQtySplit
    rw [if_neg (by simp [h1]), h2]
    simp only [h3, lt_self_iff_false, if_false, Option.map_some']
  · intro prev hi hget hprev
    unfold extractLine nameQtySplit
    rw [if_neg (by simp [h1]), h2]
    simp only [h3, if_pos hi, hget, Option.getD_some, Option.map_some']
    rw [if_neg (by simp [hprev])]
  · intro prev hi hget hprev
    unfold extractLine nameQtySplit
    rw [if_neg (by simp [h1]), h2]
    simp only [h3, if_pos hi, hget, Option.getD_some, if_pos hprev, Option.map_some']
    rfl
  · unfold extractLine nameQtySplit
    rw [if_neg (by simp [h1]), h2]
    simp only [h3, Option.map_some', Option.some.injEq]
    split
    · split
      · rfl
      · rfl
    · rfl

theorem C1_witness :
    (extractLine [lit "Water", lit "EGP 5.00"] 1 (lit "EGP 5.00")).map Item.name =
      some (displayName (lit "Water")) ∧
    (extractLine [lit "Water", lit "EGP 5.00"] 1 (lit "EGP 5.00")).map Item.qty = some 1 :=
  ⟨(C1_name_fallback [lit "Water", lit "EGP 5.00"] 1 (lit "EGP 5.00") (lit "5.00")
      (by decide) (by decide) (by decide)).2.1
    (lit "Water") (by decide) (by decide) (by decide),
   (C1_name_fallback [lit "Water", lit "EGP 5.00"] 1 (lit "EGP 5.00") (lit "5.00")
      (by decide) (by decide) (by decide)).2.2.2⟩

/-- Claim C4, counterexample: a line whose leading integer is `0` (here
`0x Cola 5.00`) produces a record with quantity 0, which is not a positive
integer; the source anticipates this with its `if qty > 0` guard. -/
theorem C4_counterexample :
    ∃ r ∈ extract_items [lit "0x Cola 5.00"], ¬ 0 < r.qty := by
  refine ⟨{ name := lit "Cola", qty := 0, unit_price := 5, total_price := 5 }, ?_, by decide⟩
  with_unfolding_all decide

/-- Claim C4, amended: every record has a nonnegative integer quantity —
zero occurs when the parsed leading integer is 0 — and satisfies
`unit_price = round(total_price / qty, 2)` whenever the quantity is
positive, and `unit_price = total_price` otherwise. -/
theorem C4_unit_price_invariant (lines : List Str) (r : Item)
    (h : r ∈ extract_items lines) :
    r.unit_price =
      if 0 < r.qty then round2 (r.total_price / (r.qty : ℚ)) else r.total_price := by
  unfold extract_items at h
  obtain ⟨p, hp, hr⟩ := List.mem_filterMap.mp h
  unfold extractLine at hr
  split at hr
  · cases hr
  · split at hr
    · cases hr
    · injection hr with h'
      have hq := congrArg Item.qty h'
      have hu := congrArg Item.unit_price h'
      have hp2 := congrArg Item.total_price h'
      simp only at hq hu hp2
      rw [← hq, ← hu, ← hp2]

theorem C4_witness :
    ({ name := lit "Cola", qty := 1, unit_price := 5, total_price := 5 } : Item).unit_price =
      if 0 < ({ name := lit "Cola", qty := 1, unit_price := 5, total_price := 5 } : Item).qty then round2 (({ name := lit "Cola", qty := 1, unit_price := 5, total_price := 5 } : Item).total_price / (({ name := lit "Cola", qty := 1, unit_price := 5, total_price := 5 } : Item).qty : ℚ)) else ({ name := lit "Cola", qty := 1, unit_price := 5, total_price := 5 } : Item).total_price :=
  C4_unit_price_invariant [lit "Cola 5.00"] _ (by with_unfolding_all decide)
